import Mathlib

/-!
Shallow embedding of `cards.py`: the `Card`/`Joker` value model and the
`Deck` manipulation engine, together with theorems settling the
specification claims about them.  Python lists become Lean lists, Python
integers become `Int`/`Nat`, raised exceptions become `Except` values, and
the process-wide configuration flag `Card.__ace_worth_1` is threaded
through as an explicit argument.
-/

namespace CardLib

/-- The Python error classes surfaced by the library.  `TypeError`,
`ValueError` and `IndexError` are unrelated classes in Python (none is a
subclass of another), so they are distinct constructors here. -/
inductive PyErr where
  | typeError
  | valueError
  | indexError
deriving DecidableEq

/-- A validly constructed `Card` or `Joker` object.  `Card.__init__` stores
`rank ∈ 1..13`, `suit ∈ 1..4` and derives `color = suit > 2`,
`face_card = rank > 10`; `Joker.__init__` stores the sentinels
`suit = rank = 0`, an explicitly chosen color and `face_card = True`.
For such objects `Card.__eq__` (rank, suit, color and face-card flag all
equal) coincides with structural equality of this type, since the derived
attributes are functions of the identity attributes. -/
inductive PCard where
  | std (rank : Nat) (suit : Nat)
  | joker (color : Bool)
deriving DecidableEq

/-- `self.rank` (a Joker stores the sentinel 0). -/
def PCard.rank : PCard → Nat
  | .std r _ => r
  | .joker _ => 0

/-- `self.suit` (a Joker stores the sentinel 0). -/
def PCard.suit : PCard → Nat
  | .std _ s => s
  | .joker _ => 0

/-- `self.color`: derived as `suit > 2` for standard cards, explicit for
Jokers. -/
def PCard.color : PCard → Bool
  | .std _ s => decide (s > 2)
  | .joker c => c

/-- `self.face_card`: derived as `rank > 10` for standard cards, always
`True` for Jokers. -/
def PCard.faceCard : PCard → Bool
  | .std r _ => decide (r > 10)
  | .joker _ => true

/-- `Card.get_ace_value()`: 1 when the global `__ace_worth_1` flag is set,
otherwise 14 (the default). -/
def getAceValue (aceWorth1 : Bool) : Nat := if aceWorth1 then 1 else 14

/-- The effective rank used by the comparison dunders:
`self.get_ace_value() if self.rank == 1 else self.rank`. -/
def effRank (aceWorth1 : Bool) (c : PCard) : Nat :=
  if c.rank = 1 then getAceValue aceWorth1 else c.rank

/-- A Python value appearing as an operand or criterion: a (valid)
`Card`/`Joker` object or a value of some other type. -/
inductive PyVal where
  | vCard (c : PCard)
  | vInt (n : Int)
  | vStr (s : String)
  | vBool (b : Bool)
  | vList (l : List PyVal)
  | vNone

/-- Whether the value is a `Card`/`Joker` instance:
`type(other) in [Card, Joker]`. -/
def PyVal.isCardVal : PyVal → Bool
  | .vCard _ => true
  | _ => false

/-- `Card.same_rank` applied to two card objects. -/
def sameRank (a b : PCard) : Bool := a.rank == b.rank

/-- `Card.same_suit` applied to two card objects. -/
def sameSuit (a b : PCard) : Bool := a.suit == b.suit

/-- `Card.same_color` applied to two card objects. -/
def sameColor (a b : PCard) : Bool := a.color == b.color

/-- `Card.__lt__` (inherited unchanged by `Joker`): a non-card operand
raises `ValueError`; card operands compare by effective rank only. -/
def cardLt (w1 : Bool) (c : PCard) (other : PyVal) : Except PyErr Bool :=
  match other with
  | .vCard o => .ok (decide (effRank w1 c < effRank w1 o))
  | _ => .error .valueError

/-- `Card.__le__`. -/
def cardLe (w1 : Bool) (c : PCard) (other : PyVal) : Except PyErr Bool :=
  match other with
  | .vCard o => .ok (decide (effRank w1 c ≤ effRank w1 o))
  | _ => .error .valueError

/-- `Card.__gt__`. -/
def cardGt (w1 : Bool) (c : PCard) (other : PyVal) : Except PyErr Bool :=
  match other with
  | .vCard o => .ok (decide (effRank w1 c > effRank w1 o))
  | _ => .error .valueError

/-- `Card.__ge__`. -/
def cardGe (w1 : Bool) (c : PCard) (other : PyVal) : Except PyErr Bool :=
  match other with
  | .vCard o => .ok (decide (effRank w1 c ≥ effRank w1 o))
  | _ => .error .valueError

/-- `Card.__eq__`: a non-card operand raises `ValueError`; card operands
must agree on rank, suit, color and the face-card flag. -/
def cardEq (c : PCard) (other : PyVal) : Except PyErr Bool :=
  match other with
  | .vCard o =>
      .ok (sameRank c o && sameSuit c o && sameColor c o && (c.faceCard == o.faceCard))
  | _ => .error .valueError

/-- Resolution of a possibly negative index against a length:
`elt = len + elt if elt < 0 else elt`. -/
def resolveI (len : Nat) (n : Int) : Int := if n < 0 then (len : Int) + n else n

/-- The resolved index as a natural number (meaningful once `0 ≤ resolveI`). -/
def resolveIdx (len : Nat) (n : Int) : Nat := (resolveI len n).toNat

/-- One flattened argument of `Deck.remove`: an integer index, a card
object, or a value of any other type (rejected with `TypeError`). -/
inductive RemArg where
  | idx (n : Int)
  | card (c : PCard)
  | bad

/-- The partition pass of `Deck.remove`: walk the flattened arguments once,
resolving and range-checking indices (`IndexError` out of `[0, len)`),
deduplicating resolved indices (appended only when not already collected),
and checking card presence (`ValueError` when absent).  `d` is the deck at
call time; it is not mutated during this pass. -/
def partitionArgs (d : List PCard) :
    List RemArg → List Nat → List PCard → Except PyErr (List Nat × List PCard)
  | [], idxs, cs => .ok (idxs, cs)
  | .idx n :: rest, idxs, cs =>
      if 0 ≤ resolveI d.length n ∧ resolveI d.length n < (d.length : Int) then
        partitionArgs d rest
          (if resolveIdx d.length n ∈ idxs then idxs else idxs ++ [resolveIdx d.length n]) cs
      else .error .indexError
  | .card c :: rest, idxs, cs =>
      if c ∈ d then partitionArgs d rest idxs (cs ++ [c]) else .error .valueError
  | .bad :: _, _, _ => .error .typeError

/-- `indexes_to_remove.sort(reverse=True)`: a descending sort.  The index
list is deduplicated, so the descending arrangement is unique and any
stable implementation produces the list Python produces. -/
def sortDescNat (l : List Nat) : List Nat :=
  (List.insertionSort (fun a b : Nat => a ≤ b) l).reverse

/-- The mutation phase of `Deck.remove` after a successful partition: pop
the resolved indices in descending order (each pop guarded by a range
check against the current length), then remove one matching occurrence
per card argument, silently skipping a card no longer present. -/
def removeCore (d : List PCard) (p : List Nat × List PCard) : List PCard :=
  p.2.foldl (fun acc c => if c ∈ acc then acc.erase c else acc)
    ((sortDescNat p.1).foldl (fun acc i => if i < acc.length then acc.eraseIdx i else acc) d)

/-- `Deck.remove` on an already-flattened argument list: no-op without
arguments, otherwise partition into indices and cards (raising on the
first invalid argument) and run the two removal passes. -/
def removeEmbed (d : List PCard) (args : List RemArg) : Except PyErr (List PCard) :=
  if args.isEmpty then .ok d else
    match partitionArgs d args [] [] with
    | .error e => .error e
    | .ok p => .ok (removeCore d p)

/-- `Deck.get` restricted to a nonempty list of integer indexes (already
flattened): resolve each index in order, `IndexError` out of range.  The
Python method finally returns the single card when exactly one index was
given and a new `Deck` of the retrieved cards otherwise; the retrieved
list itself is modelled here.  Under the range check the `getD` fallback
is never used. -/
def getCards (d : List PCard) : List Int → Except PyErr (List PCard)
  | [] => .ok []
  | n :: rest =>
      if 0 ≤ resolveI d.length n ∧ resolveI d.length n < (d.length : Int) then
        match getCards d rest with
        | .ok cs => .ok (d.getD (resolveIdx d.length n) (.joker false) :: cs)
        | .error e => .error e
      else .error .indexError

/-- `Deck.add` with an already-flattened, validated batch of cards.  The
index is range-checked against `[-len, len]` before anything else; `None`
appends; otherwise `self.cards[index:index] = cards` splices the batch at
the resolved position.  (When the batch is empty the splice leaves the
deck unchanged, which also covers the `if cards:` guard in the source.) -/
def addEmbed (d : List PCard) (batch : List PCard) (index : Option Int) :
    Except PyErr (List PCard) :=
  match index with
  | none => .ok (d ++ batch)
  | some i =>
      if i < -(d.length : Int) ∨ (d.length : Int) < i then .error .indexError
      else .ok (d.take (resolveIdx d.length i) ++ batch ++ d.drop (resolveIdx d.length i))

/-- `Deck.draw` on a single index `i` followed by
`deck.add(drawn, index=i)`: `draw` is `get` then `remove` with the same
index; the drawn value is either the card itself or (for a Joker) a
one-card `Deck`, and `add` flattens both into the same one-card batch
before splicing. -/
def drawThenAdd (d : List PCard) (i : Int) : Except PyErr (List PCard) :=
  match getCards d [i] with
  | .error e => .error e
  | .ok got =>
      match removeEmbed d [.idx i] with
      | .error e => .error e
      | .ok rest => addEmbed rest got (some i)

/-- An argument of `Deck.__getitem__`: an integer or a slice with integer
start and stop. -/
inductive GetItemArg where
  | int (n : Int)
  | slice (start stop : Int)

/-- `Deck.__getitem__`.  In the slice branch, after both bound checks the
source evaluates `Card(self.cards[item])`: the `Card` constructor takes
two required positional arguments `(rank, suit)`, so calling it with the
single slice list raises `TypeError` (and a list passed as the `rank`
argument would likewise be rejected by the constructor's
`type(rank) in (int, str)` check with `TypeError`). -/
def getitem (d : List PCard) : GetItemArg → Except PyErr PCard
  | .int n =>
      if 0 ≤ resolveI d.length n ∧ resolveI d.length n < (d.length : Int) then
        .ok (d.getD (resolveIdx d.length n) (.joker false))
      else .error .indexError
  | .slice start stop =>
      if 0 ≤ resolveI d.length start ∧ resolveI d.length start < (d.length : Int) then
        if 0 ≤ resolveI d.length stop ∧ resolveI d.length stop ≤ (d.length : Int) then
          .error .typeError
        else .error .indexError
      else .error .indexError

/-- The sort key of `Deck.sort_by_rank`:
`(card.rank if card.rank != 1 else card.get_ace_value(), card.suit)`. -/
def rankKey (w1 : Bool) (c : PCard) : Nat × Nat :=
  ((if c.rank = 1 then getAceValue w1 else c.rank), c.suit)

/-- Python's lexicographic comparison of the key tuples. -/
def rankKeyLe (w1 : Bool) (a b : PCard) : Bool :=
  decide ((rankKey w1 a).1 < (rankKey w1 b).1) ||
    ((rankKey w1 a).1 == (rankKey w1 b).1 && decide ((rankKey w1 a).2 ≤ (rankKey w1 b).2))

/-- `Deck.sort_by_rank`: Python's `sorted` is a stable sort on the key;
insertion sort is likewise stable. -/
def sortByRank (w1 : Bool) (d : List PCard) : List PCard :=
  List.insertionSort (fun a b => rankKeyLe w1 a b = true) d

/-- Specification-side description of removal by positions (from the
spec's words): keep exactly the elements whose absolute position (the
first element of `l` having position `k`) is not in `s`, preserving
relative order. -/
def keepNotAt {α : Type _} (s : List Nat) : List α → Nat → List α
  | [], _ => []
  | a :: t, k => if k ∈ s then keepNotAt s t (k + 1) else a :: keepNotAt s t (k + 1)

/-- The sampling loop of `Deck.get_random`: while cards are still wanted
and the candidate pool (a copy of the deck) is nonempty, pick one candidate
(`choice`, modelled by the arbitrary index stream `pick`, reduced modulo the
current pool size), delete its first equal occurrence from the pool
(`possible_cards.remove(card)`), and append it to the result. -/
def grLoop (pick : Nat → Nat) : Nat → Nat → List PCard → List PCard → List PCard
  | _, 0, _, acc => acc
  | _, _ + 1, [], acc => acc
  | k, a + 1, x :: xs, acc =>
      let c := (x :: xs).get ⟨pick k % (x :: xs).length, Nat.mod_lt _ (Nat.succ_pos _)⟩
      grLoop pick (k + 1) a ((x :: xs).erase c) (acc ++ [c])

/-- `Deck.get_random(amount)`: the loop runs on a copy of `self.cards`, so
the receiver's card list is returned unchanged as the second component.
The Python method finally returns the single card when exactly one card
was sampled and a new `Deck` of the samples otherwise; the sampled list
itself is the first component. -/
def getRandomEmbed (pick : Nat → Nat) (amount : Nat) (cards : List PCard) :
    List PCard × List PCard :=
  (grLoop pick 0 amount cards [], cards)

/-- The string `Joker`, accepted as a rank criterion. -/
def jokerStr : String := "Joker"

/-- `criteria[ind].startswith("!")`: the string's first character is the
exclusion marker. -/
def startsBang (s : String) : Bool :=
  match s.data with
  | [] => false
  | c :: _ => c == '!'

/-- `criteria.pop(ind)[1:]`: the string without its first character. -/
def strTail (s : String) : String := String.mk (s.data.drop 1)

/-- One scalar rank/suit criterion of `Deck.select`: a Python `int` or
`str`.  (A criterion of any other type makes `get_test_card` raise
`TypeError`; no claim exercises that branch.) -/
inductive RVal where
  | rInt (n : Int)
  | rStr (s : String)

/-- A rank/suit criterion argument: a scalar, or a list/tuple of scalars
(`rank = [rank] if type(rank) in (int, str) else list(rank)`). -/
inductive Crit where
  | scalar (a : RVal)
  | coll (l : List RVal)

/-- Normalisation of a criterion argument to a list. -/
def Crit.toList : Crit → List RVal
  | .scalar a => [a]
  | .coll l => l

/-- Whether `separate_exclusions` treats the scalar as an exclusion: a
negative integer, or a string starting with `!`. -/
def isExclTok : RVal → Bool
  | .rInt n => decide (n < 0)
  | .rStr s => startsBang s

/-- The value appended to the exclusion list for an exclusion scalar:
`-criteria.pop(ind)` for a negative integer, `criteria.pop(ind)[1:]` for a
marked string. -/
def exclToken : RVal → Option RVal
  | .rInt n => if n < 0 then some (.rInt (-n)) else none
  | .rStr s => if startsBang s then some (.rStr (strTail s)) else none

/-- `separate_exclusions`: the loop walks the criterion list backwards,
popping every exclusion scalar and appending its token to the exclusion
list; the inclusions keep their relative order, and the exclusion list
ends up in reverse order of appearance. -/
def separateExclusions (l : List RVal) : List RVal × List RVal :=
  (l.reverse.filterMap exclToken, l.filter (fun a => ! isExclTok a))

/-- The table `Card.__ranks` as the name-to-value map used by
`Card.__init__` and `get_test_card`. -/
def rankVal : String → Option Nat
  | "Ace" => some 1
  | "2" => some 2
  | "3" => some 3
  | "4" => some 4
  | "5" => some 5
  | "6" => some 6
  | "7" => some 7
  | "8" => some 8
  | "9" => some 9
  | "10" => some 10
  | "Jack" => some 11
  | "Queen" => some 12
  | "King" => some 13
  | _ => none

/-- The table `Card.__suits`. -/
def suitVal : String → Option Nat
  | "Clubs" => some 1
  | "Spades" => some 2
  | "Diamonds" => some 3
  | "Hearts" => some 4
  | _ => none

/-- The rank-stage `get_test_card`: a known rank name or an integer in
`1..13` yields `Card(r, 1)`; the string `Joker` or the integer 0 yields
`Joker(False)`; any other value raises `ValueError` (non-int/str values,
not modelled by `RVal`, raise `TypeError`). -/
def getTestCardRank : RVal → Except PyErr PCard
  | .rInt n =>
      if 1 ≤ n ∧ n ≤ 13 then .ok (.std n.toNat 1)
      else if n = 0 then .ok (.joker false) else .error .valueError
  | .rStr s =>
      match rankVal s with
      | some rv => .ok (.std rv 1)
      | none => if s = jokerStr then .ok (.joker false) else .error .valueError

/-- The suit-stage `get_test_card`: a known suit name or an integer in
`1..4` yields `Card(1, s)`; the integer 0 yields `Joker(False)`; any other
value raises `ValueError`. -/
def getTestCardSuit : RVal → Except PyErr PCard
  | .rInt n =>
      if 1 ≤ n ∧ n ≤ 4 then .ok (.std 1 n.toNat)
      else if n = 0 then .ok (.joker false) else .error .valueError
  | .rStr s =>
      match suitVal s with
      | some sv => .ok (.std 1 sv)
      | none => .error .valueError

/-- Applying the exclusion tokens in order: for each token the working set
is rebuilt without the matching cards.  The test card is built inside the
list comprehension, so over an empty working set it is never built and an
invalid token raises nothing. -/
def applyExclusions (testCard : RVal → Except PyErr PCard)
    (same : PCard → PCard → Bool) :
    List PCard → List RVal → Except PyErr (List PCard)
  | sel, [] => .ok sel
  | sel, r :: rest =>
      if sel.isEmpty then applyExclusions testCard same sel rest
      else
        match testCard r with
        | .error e => .error e
        | .ok t => applyExclusions testCard same (sel.filter (fun c => ! same c t)) rest

/-- Applying the inclusion values: `filtered_cards` starts empty and the
matching subset for each inclusion value is concatenated onto it, the
working set staying fixed throughout the loop.  Over an empty working set
the test card is never built. -/
def applyInclusions (testCard : RVal → Except PyErr PCard)
    (same : PCard → PCard → Bool) (sel : List PCard) :
    List RVal → List PCard → Except PyErr (List PCard)
  | [], acc => .ok acc
  | r :: rest, acc =>
      if sel.isEmpty then applyInclusions testCard same sel rest acc
      else
        match testCard r with
        | .error e => .error e
        | .ok t => applyInclusions testCard same sel rest (acc ++ sel.filter (fun c => same c t))

/-- One criterion family stage of `select` (rank or suit): split the
criterion list into exclusions and inclusions, filter the exclusions out
of the working set, then — unconditionally — rebuild the working set as
the concatenation of the inclusion subsets (`selected_cards =
filtered_cards` runs even when no inclusion values remain). -/
def critStage (testCard : RVal → Except PyErr PCard) (same : PCard → PCard → Bool)
    (sel : List PCard) (crit : List RVal) : Except PyErr (List PCard) :=
  match applyExclusions testCard same sel (separateExclusions crit).1 with
  | .error e => .error e
  | .ok sel1 => applyInclusions testCard same sel1 (separateExclusions crit).2 []

/-- The color stage of `select`: a string criterion other than `Black` or
`Red` raises `ValueError`, a non-bool non-string criterion raises
`TypeError`; otherwise the working set is filtered by `has_color`. -/
def colorStage (sel : List PCard) : PyVal → Except PyErr (List PCard)
  | .vStr s =>
      if s ≠ "Black" ∧ s ≠ "Red" then .error .valueError
      else .ok (sel.filter (fun c => c.color == decide (s = "Red")))
  | .vBool b => .ok (sel.filter (fun c => c.color == b))
  | _ => .error .typeError

/-- The face-card stage of `select`: a non-bool criterion raises
`TypeError`; otherwise the working set is filtered by the flag. -/
def faceStage (sel : List PCard) : PyVal → Except PyErr (List PCard)
  | .vBool b => .ok (sel.filter (fun c => c.faceCard == b))
  | _ => .error .typeError

/-- `Deck.select(rank, suit, color, face_card)`: the four optional stages
applied in order to the working set, which starts as the receiver's card
list; a new deck is built from the final working set (every element is
already a card, so the `Deck` constructor validation succeeds). -/
def selectEmbed (d : List PCard) (rank suit : Option Crit)
    (color face : Option PyVal) : Except PyErr (List PCard) :=
  let sel0 := d
  match (match rank with
         | none => .ok sel0
         | some cr => critStage getTestCardRank sameRank sel0 cr.toList : Except PyErr (List PCard)) with
  | .error e => .error e
  | .ok sel1 =>
      match (match suit with
             | none => .ok sel1
             | some cr => critStage getTestCardSuit sameSuit sel1 cr.toList : Except PyErr (List PCard)) with
      | .error e => .error e
      | .ok sel2 =>
          match (match color with
                 | none => .ok sel2
                 | some cv => colorStage sel2 cv : Except PyErr (List PCard)) with
          | .error e => .error e
          | .ok sel3 =>
              match face with
              | none => .ok sel3
              | some fv => faceStage sel3 fv

/-- The insertion order of `Card.__ranks`. -/
def rankNames : List String :=
  ["Ace", "2", "3", "4", "5", "6", "7", "8", "9", "10", "Jack", "Queen", "King"]

/-- The insertion order of `Card.__suits`. -/
def suitNames : List String :=
  ["Clubs", "Spades", "Diamonds", "Hearts"]

/-- `Card(rank_name, suit_name)` for string arguments: both names are
looked up in the tables (`ValueError` when unknown); the stored values are
always in range, so the subsequent range check succeeds. -/
def cardFromNames (r s : String) : Except PyErr PCard :=
  match rankVal r, suitVal s with
  | some rv, some sv => .ok (.std rv sv)
  | _, _ => .error .valueError

/-- The card built from two valid names (the total companion of
`cardFromNames`, used to state its success value). -/
def cardOfNames (r s : String) : PCard :=
  .std ((rankVal r).getD 0) ((suitVal s).getD 0)

/-- One suit's slice of the comprehension in `generate_standard_deck`:
`Card(rank, suit)` for each rank name in iteration order. -/
def rowFor (s : String) : List String → Except PyErr (List PCard)
  | [] => .ok []
  | r :: rest =>
      match cardFromNames r s with
      | .error e => .error e
      | .ok c =>
          match rowFor s rest with
          | .error e => .error e
          | .ok cs => .ok (c :: cs)

/-- The full comprehension `[Card(rank, suit) for suit in ... for rank in ...]`,
suits in the outer loop. -/
def rowsFor (ranksOrd : List String) : List String → Except PyErr (List PCard)
  | [] => .ok []
  | s :: rest =>
      match rowFor s ranksOrd with
      | .error e => .error e
      | .ok row =>
          match rowsFor ranksOrd rest with
          | .error e => .error e
          | .ok rows => .ok (row ++ rows)

/-- `Deck.generate_standard_deck` (the population of a no-argument
`Deck()`): the 52-card comprehension followed by `Joker("Black")` and
`Joker("Red")`.  `suitsOrd` and `ranksOrd` model the iteration order of
the sets returned by `Card.get_suits()` / `Card.get_ranks()`; within a
Python process, those sets enumerate the same 4 and 13 names in a fixed
order on every call, so every no-argument construction in a process sees
the same orders. -/
def generateStandardDeck (suitsOrd ranksOrd : List String) : Except PyErr (List PCard) :=
  match rowsFor ranksOrd suitsOrd with
  | .error e => .error e
  | .ok cs => .ok (cs ++ [.joker false, .joker true])

/-- The 52 standard cards in the canonical table order (suits
Clubs..Hearts, ranks Ace..King). -/
def stdCards52 : List PCard :=
  (List.range 4).flatMap (fun s => (List.range 13).map (fun r => .std (r + 1) (s + 1)))

/-- A standard 54-card deck: the 52 cards plus the black and red Jokers. -/
def stdDeck54 : List PCard := stdCards52 ++ [.joker false, .joker true]

/-! ### Helper lemmas about `keepNotAt` and index removal -/

theorem keepNotAt_nil {α : Type _} (l : List α) (k : Nat) : keepNotAt [] l k = l := by
  induction l generalizing k with
  | nil => rfl
  | cons a t ih => simp [keepNotAt, ih]

theorem keepNotAt_append {α : Type _} (s : List Nat) (l₁ l₂ : List α) (k : Nat) :
    keepNotAt s (l₁ ++ l₂) k = keepNotAt s l₁ k ++ keepNotAt s l₂ (k + l₁.length) := by
  induction l₁ generalizing k with
  | nil => simp [keepNotAt]
  | cons a t ih =>
      have harith : k + (t.length + 1) = k + 1 + t.length := by omega
      by_cases hk : k ∈ s
      · simp [keepNotAt, hk, ih, harith]
      · simp [keepNotAt, hk, ih, harith]

theorem keepNotAt_all_lt {α : Type _} (s : List Nat) (l : List α) (k : Nat)
    (h : ∀ j ∈ s, j < k) : keepNotAt s l k = l := by
  induction l generalizing k with
  | nil => rfl
  | cons a t ih =>
      have hk : k ∉ s := fun hm => absurd (h k hm) (by omega)
      simp [keepNotAt, hk, ih (k + 1) (fun j hj => by have := h j hj; omega)]

theorem keepNotAt_cons_ge {α : Type _} (i : Nat) (s : List Nat) (l : List α) (k : Nat)
    (h : k + l.length ≤ i) : keepNotAt (i :: s) l k = keepNotAt s l k := by
  induction l generalizing k with
  | nil => rfl
  | cons a t ih =>
      have hlen : (a :: t).length = t.length + 1 := rfl
      have hki : k ≠ i := by rw [hlen] at h; omega
      have hrec := ih (k + 1) (by rw [hlen] at h; omega)
      by_cases hk : k ∈ s
      · simp [keepNotAt, List.mem_cons, hki, hk, hrec]
      · simp [keepNotAt, List.mem_cons, hki, hk, hrec]

theorem keepNotAt_congr {α : Type _} (s t : List Nat) (l : List α) (k : Nat)
    (h : ∀ j, j ∈ s ↔ j ∈ t) : keepNotAt s l k = keepNotAt t l k := by
  induction l generalizing k with
  | nil => rfl
  | cons a u ih =>
      by_cases hk : k ∈ s
      · simp [keepNotAt, hk, (h k).mp hk, ih]
      · have hkt : k ∉ t := fun hm => hk ((h k).mpr hm)
        simp [keepNotAt, hk, hkt, ih]

theorem keepNotAt_eraseIdx {α : Type _} (l : List α) (i : Nat) (s : List Nat)
    (hi : i < l.length) (hs : ∀ j ∈ s, j < i) :
    keepNotAt s (l.eraseIdx i) 0 = keepNotAt (i :: s) l 0 := by
  have htake : (l.take i).length = i := by rw [List.length_take]; omega
  have hdrop : ∀ j ∈ i :: s, j < i + 1 := by
    intro j hj
    rcases List.mem_cons.mp hj with hj | hj
    · omega
    · have := hs j hj; omega
  rw [List.eraseIdx_eq_take_drop_succ, keepNotAt_append, htake, Nat.zero_add,
      keepNotAt_all_lt s (l.drop (i + 1)) i hs]
  conv_rhs => rw [← List.take_append_drop i l, List.drop_eq_getElem_cons hi]
  rw [keepNotAt_append, htake, Nat.zero_add,
      keepNotAt_cons_ge i s (l.take i) 0 (by rw [htake]; omega)]
  have hstep : keepNotAt (i :: s) (l[i] :: l.drop (i + 1)) i = l.drop (i + 1) := by
    have hmem : i ∈ i :: s := List.mem_cons_self i s
    simp only [keepNotAt, if_pos hmem]
    exact keepNotAt_all_lt (i :: s) (l.drop (i + 1)) (i + 1) hdrop
  rw [hstep]

theorem foldl_eraseIdx_eq_keepNotAt {α : Type _} :
    ∀ (s : List Nat) (l : List α), s.Pairwise (· > ·) → (∀ i ∈ s, i < l.length) →
      s.foldl (fun acc i => if i < acc.length then acc.eraseIdx i else acc) l
        = keepNotAt s l 0 := by
  intro s
  induction s with
  | nil => intro l _ _; rw [List.foldl_nil, keepNotAt_nil]
  | cons i rest ih =>
      intro l hp hb
      have hi : i < l.length := hb i (List.mem_cons_self i rest)
      have hrest : ∀ j ∈ rest, j < i := fun j hj => (List.pairwise_cons.mp hp).1 j hj
      have hb2 : ∀ j ∈ rest, j < (l.eraseIdx i).length := by
        intro j hj
        rw [List.length_eraseIdx_of_lt hi]
        have := hrest j hj
        omega
      rw [List.foldl_cons, if_pos hi, ih (l.eraseIdx i) (List.pairwise_cons.mp hp).2 hb2,
          keepNotAt_eraseIdx l i rest hi hrest]

theorem partitionArgs_indices (d : List PCard) :
    ∀ (args : List Int) (acc : List Nat) (cs : List PCard),
      (∀ n ∈ args, 0 ≤ resolveI d.length n ∧ resolveI d.length n < (d.length : Int)) →
      ∃ idxs, partitionArgs d (args.map RemArg.idx) acc cs = .ok (idxs, cs) ∧
        (∀ j, j ∈ idxs ↔ j ∈ acc ∨ j ∈ args.map (resolveIdx d.length)) ∧
        (acc.Nodup → idxs.Nodup) := by
  intro args
  induction args with
  | nil =>
      intro acc cs _
      exact ⟨acc, rfl, by simp, id⟩
  | cons n rest ih =>
      intro acc cs h
      have hn := h n (List.mem_cons_self n rest)
      obtain ⟨idxs, h1, h2, h3⟩ :=
        ih (if resolveIdx d.length n ∈ acc then acc else acc ++ [resolveIdx d.length n]) cs
          (fun m hm => h m (List.mem_cons_of_mem n hm))
      refine ⟨idxs, ?_, ?_, ?_⟩
      · simpa only [List.map_cons, partitionArgs, if_pos hn] using h1
      · intro j
        rw [h2 j]
        by_cases hmem : resolveIdx d.length n ∈ acc
        · rw [if_pos hmem]
          simp only [List.map_cons, List.mem_cons]
          constructor
          · tauto
          · rintro (hj | hj | hj)
            · exact Or.inl hj
            · exact Or.inl (hj ▸ hmem)
            · exact Or.inr hj
        · rw [if_neg hmem]
          simp only [List.map_cons, List.mem_cons, List.mem_append, List.mem_singleton]
          tauto
      · intro hnd
        apply h3
        by_cases hmem : resolveIdx d.length n ∈ acc
        · simpa [hmem] using hnd
        · rw [if_neg hmem, (List.perm_append_singleton _ _).nodup_iff]
          exact List.nodup_cons.mpr ⟨hmem, hnd⟩

theorem sortDescNat_perm (l : List Nat) : List.Perm (sortDescNat l) l :=
  (List.reverse_perm _).trans (List.perm_insertionSort _ l)

theorem sortDescNat_sorted_gt (l : List Nat) (h : l.Nodup) :
    (sortDescNat l).Pairwise (· > ·) := by
  have h1 : (List.insertionSort (fun a b : Nat => a ≤ b) l).Pairwise
      (fun a b : Nat => a ≤ b) := List.sorted_insertionSort _ l
  have h2 : (sortDescNat l).Pairwise (fun a b : Nat => b ≤ a) :=
    List.pairwise_reverse.mpr h1
  have h3 : (sortDescNat l).Nodup := (sortDescNat_perm l).nodup_iff.mpr h
  exact List.Sorted.gt_of_ge h2 h3

/-! ### Claim theorems -/

/-- C2 counterexample: the claim says every comparison of a card with a
non-card value fails with a `TypeError`-class error, but `Card(1,1) < 5`
raises `ValueError`, which is not a `TypeError`-class error. -/
theorem compare_noncard_not_typeError :
    cardLt false (.std 1 1) (.vInt 5) = .error .valueError ∧
      PyErr.valueError ≠ PyErr.typeError :=
  ⟨rfl, by decide⟩

/-- C2 (corrected): for every card (or Joker) and every value that is
neither a `Card` nor a `Joker`, each comparison operator `<`, `<=`, `>`,
`>=`, `==` fails with a `ValueError`-class error. -/
theorem compare_noncard_valueError (w1 : Bool) (c : PCard) (v : PyVal)
    (h : v.isCardVal = false) :
    cardLt w1 c v = .error .valueError ∧ cardLe w1 c v = .error .valueError ∧
      cardGt w1 c v = .error .valueError ∧ cardGe w1 c v = .error .valueError ∧
      cardEq c v = .error .valueError := by
  cases v <;> simp_all [cardLt, cardLe, cardGt, cardGe, cardEq, PyVal.isCardVal]

/-- Witness for `compare_noncard_valueError` at the integer operand 5. -/
theorem compare_noncard_valueError_witness :
    PyVal.isCardVal (.vInt 5) = false ∧
      (cardLt false (.std 1 1) (.vInt 5) = .error .valueError ∧
        cardLe false (.std 1 1) (.vInt 5) = .error .valueError ∧
        cardGt false (.std 1 1) (.vInt 5) = .error .valueError ∧
        cardGe false (.std 1 1) (.vInt 5) = .error .valueError ∧
        cardEq (.std 1 1) (.vInt 5) = .error .valueError) :=
  ⟨rfl, compare_noncard_valueError false (.std 1 1) (.vInt 5) rfl⟩

/-- C4: on the deck `[Card(1,1), Card(2,1)]`, `deck.remove(0, Card(1,1))`
removes `Card(1,1)` once through the index path, the subsequent card pass
skips the now-absent card without raising, and the deck ends as
`[Card(2,1)]`. -/
theorem remove_index_then_card_scenario :
    removeEmbed [.std 1 1, .std 2 1] [.idx 0, .card (.std 1 1)] = .ok [.std 2 1] := rfl

/-- C8: sorting `Deck(Card(1,1), Joker("Red"), Card(10,2), Card("Queen",1))`
by rank with the default Ace-high configuration yields
`[Joker(Red), Card(10,2), Card(Queen,1), Card(1,1)]`. -/
theorem sort_by_rank_scenario :
    sortByRank false [.std 1 1, .joker true, .std 10 2, .std 12 1]
      = [.joker true, .std 10 2, .std 12 1, .std 1 1] := by decide

/-- C6: on any deck, subscripting with a slice whose start resolves into
`[0, len)` and whose stop resolves into `[0, len]` raises `TypeError`
(the slice list reaches the two-argument `Card` constructor) instead of
returning the requested cards. -/
theorem getitem_slice_raises_typeError (d : List PCard) (start stop : Int)
    (h1 : 0 ≤ resolveI d.length start) (h2 : resolveI d.length start < (d.length : Int))
    (h3 : 0 ≤ resolveI d.length stop) (h4 : resolveI d.length stop ≤ (d.length : Int)) :
    getitem d (.slice start stop) = .error .typeError := by
  simp only [getitem]
  rw [if_pos ⟨h1, h2⟩, if_pos ⟨h3, h4⟩]

/-- Witness for `getitem_slice_raises_typeError`: the in-bounds slice `0:2`
of a two-card deck. -/
theorem getitem_slice_raises_typeError_witness :
    (0 ≤ resolveI 2 0 ∧ resolveI 2 0 < (2 : Int) ∧
      0 ≤ resolveI 2 2 ∧ resolveI 2 2 ≤ (2 : Int)) ∧
    getitem [.std 1 1, .std 2 1] (.slice 0 2) = .error .typeError :=
  ⟨by decide, getitem_slice_raises_typeError [.std 1 1, .std 2 1] 0 2
    (by decide) (by decide) (by decide) (by decide)⟩

/-- C7: on a nonempty deck, `deck.add(batch, index=-1)` splices the batch
as a contiguous block immediately before the last card: the result is the
original prefix, then the batch in order, then the original last card. -/
theorem add_before_last (d batch : List PCard) (h : d ≠ []) :
    addEmbed d batch (some (-1)) = .ok (d.dropLast ++ batch ++ [d.getLast h]) := by
  have hlen : 1 ≤ d.length := List.length_pos.mpr h
  have hcond : ¬((-1 : Int) < -(d.length : Int) ∨ (d.length : Int) < -1) := by
    push_neg
    constructor <;> omega
  have hres : resolveIdx d.length (-1) = d.length - 1 := by
    unfold resolveIdx resolveI
    rw [if_pos (by norm_num)]
    omega
  have htake : d.take (d.length - 1) = d.dropLast := (List.dropLast_eq_take d).symm
  have hsucc : d.length - 1 + 1 = d.length := by omega
  have hdrop : d.drop (d.length - 1) = [d.getLast h] := by
    rw [List.drop_eq_getElem_cons (by omega)]
    simp only [hsucc, List.drop_length, List.getLast_eq_getElem]
  simp only [addEmbed, if_neg hcond, hres, htake, hdrop]

/-- Witness for `add_before_last`: inserting a one-card batch into a
two-card deck at index `-1`. -/
theorem add_before_last_witness :
    ([PCard.std 1 1, PCard.std 2 1] ≠ ([] : List PCard)) ∧
    addEmbed [.std 1 1, .std 2 1] [.std 5 1] (some (-1))
      = .ok [.std 1 1, .std 5 1, .std 2 1] :=
  ⟨by decide, add_before_last [.std 1 1, .std 2 1] [.std 5 1] (by decide)⟩

/-- C5: removal by any list of valid integer indices (any order, repeats
and negative forms allowed) resolves each index to non-negative form,
deduplicates, and removes exactly the cards at those distinct original
positions, leaving the remaining cards in their original relative order:
the result is the position filter of the original deck by the resolved
index set. -/
theorem remove_indices_removes_positions (d : List PCard) (args : List Int)
    (h : ∀ n ∈ args, 0 ≤ resolveI d.length n ∧ resolveI d.length n < (d.length : Int)) :
    removeEmbed d (args.map RemArg.idx)
      = .ok (keepNotAt (args.map (resolveIdx d.length)) d 0) := by
  rcases args with _ | ⟨a, rest⟩
  · simp [removeEmbed, keepNotAt_nil]
  · obtain ⟨idxs, hpart, hmem, hnd⟩ := partitionArgs_indices d (a :: rest) [] [] h
    have hnodup : idxs.Nodup := hnd List.nodup_nil
    have hmem2 : ∀ j, j ∈ idxs ↔ j ∈ (a :: rest).map (resolveIdx d.length) := by
      intro j
      rw [hmem j]
      simp
    have hbound : ∀ i ∈ sortDescNat idxs, i < d.length := by
      intro i hi
      have hin : i ∈ idxs := (sortDescNat_perm idxs).mem_iff.mp hi
      obtain ⟨n, hn, hni⟩ := List.mem_map.mp ((hmem2 i).mp hin)
      rcases h n hn with ⟨hn0, hn1⟩
      rw [← hni]
      unfold resolveIdx
      omega
    have hsorted := sortDescNat_sorted_gt idxs hnodup
    have hfold := foldl_eraseIdx_eq_keepNotAt (sortDescNat idxs) d hsorted hbound
    have hcongr : keepNotAt (sortDescNat idxs) d 0
        = keepNotAt ((a :: rest).map (resolveIdx d.length)) d 0 := by
      apply keepNotAt_congr
      intro j
      rw [(sortDescNat_perm idxs).mem_iff]
      exact hmem2 j
    have hmain : removeCore d (idxs, []) = keepNotAt ((a :: rest).map (resolveIdx d.length)) d 0 := by
      rw [removeCore, List.foldl_nil, hfold, hcongr]
    simp only [removeEmbed, List.map_cons, List.isEmpty_cons, Bool.false_eq_true, if_false]
    rw [List.map_cons] at hpart
    rw [hpart]
    show Except.ok (removeCore d (idxs, [])) = _
    rw [hmain]
    rfl

/-- Witness for `remove_indices_removes_positions`: deck of three cards,
indices `-1, 0, 2, 0` (a repeat, a negative form, and out-of-order). -/
theorem remove_indices_removes_positions_witness :
    (∀ n ∈ ([-1, 0, 2, 0] : List Int), 0 ≤ resolveI 3 n ∧ resolveI 3 n < (3 : Int)) ∧
      removeEmbed [.std 1 1, .std 2 1, .std 3 1] (([-1, 0, 2, 0] : List Int).map RemArg.idx)
        = .ok (keepNotAt (([-1, 0, 2, 0] : List Int).map (resolveIdx 3))
            [.std 1 1, .std 2 1, .std 3 1] 0) :=
  ⟨by decide, remove_indices_removes_positions _ _ (by decide)⟩

theorem remove_single_index (d : List PCard) (i : Int)
    (h0 : 0 ≤ i) (h1 : i < (d.length : Int)) :
    removeEmbed d [.idx i] = .ok (d.eraseIdx i.toNat) := by
  have hres : resolveI d.length i = i := by
    unfold resolveI
    rw [if_neg (by omega)]
  have hcond : 0 ≤ resolveI d.length i ∧ resolveI d.length i < (d.length : Int) := by
    rw [hres]
    exact ⟨h0, h1⟩
  have hidx : resolveIdx d.length i = i.toNat := by
    unfold resolveIdx
    rw [hres]
  have hpart : partitionArgs d [.idx i] [] [] = .ok ([resolveIdx d.length i], []) := by
    simp only [partitionArgs, if_pos hcond]
    rw [if_neg (List.not_mem_nil _)]
    rfl
  simp only [removeEmbed, List.isEmpty_cons, Bool.false_eq_true, if_false]
  rw [hpart]
  show Except.ok (removeCore d ([resolveIdx d.length i], [])) = _
  have hsort : sortDescNat [resolveIdx d.length i] = [resolveIdx d.length i] := rfl
  simp only [removeCore, hsort, List.foldl_cons, List.foldl_nil]
  rw [hidx, if_pos (by omega : i.toNat < d.length)]

/-- C3 counterexample: the claim includes the negative indices accepted by
`draw`, but drawing `Card(2,1)` at index `-1` from `[Card(1,1), Card(2,1)]`
and re-adding it at index `-1` yields `[Card(2,1), Card(1,1)]`: after the
removal the deck is one card shorter, so `-1` resolves one slot earlier
than it did in `draw`. -/
theorem draw_add_negative_index_not_restored :
    drawThenAdd [.std 1 1, .std 2 1] (-1) = .ok [.std 2 1, .std 1 1] ∧
      ([PCard.std 2 1, PCard.std 1 1] : List PCard) ≠ [.std 1 1, .std 2 1] :=
  ⟨rfl, by decide⟩

/-- C3 (corrected): for every deck and every valid non-negative index
`i` (`0 ≤ i < len`), `deck.draw(i)` followed by
`deck.add(drawn, index=i)` restores the deck to exactly its original
sequence. -/
theorem draw_add_nonneg_restores (d : List PCard) (i : Int)
    (h0 : 0 ≤ i) (h1 : i < (d.length : Int)) :
    drawThenAdd d i = .ok d := by
  have hn : i.toNat < d.length := by omega
  have hres : resolveI d.length i = i := by
    unfold resolveI
    rw [if_neg (by omega)]
  have hcond : 0 ≤ resolveI d.length i ∧ resolveI d.length i < (d.length : Int) := by
    rw [hres]
    exact ⟨h0, h1⟩
  have hidx : resolveIdx d.length i = i.toNat := by
    unfold resolveIdx
    rw [hres]
  have hget : getCards d [i] = .ok [d.getD i.toNat (.joker false)] := by
    simp only [getCards, if_pos hcond, hidx]
  have hgetD : d.getD i.toNat (.joker false) = d[i.toNat] := by
    rw [List.getD_eq_getElem?_getD, List.getElem?_eq_getElem hn, Option.getD_some]
  have hlen2 : (d.eraseIdx i.toNat).length = d.length - 1 :=
    List.length_eraseIdx_of_lt hn
  have hcond2 : ¬(i < -((d.eraseIdx i.toNat).length : Int) ∨
      ((d.eraseIdx i.toNat).length : Int) < i) := by
    rw [hlen2]
    push_neg
    omega
  have hres2 : resolveI (d.eraseIdx i.toNat).length i = i := by
    unfold resolveI
    rw [if_neg (by omega)]
  have hidx2 : resolveIdx (d.eraseIdx i.toNat).length i = i.toNat := by
    unfold resolveIdx
    rw [hres2]
  have htlen : (d.take i.toNat).length = i.toNat := by
    rw [List.length_take]
    omega
  simp only [drawThenAdd]
  rw [hget]
  show (match removeEmbed d [.idx i] with
        | Except.error e => (Except.error e : Except PyErr (List PCard))
        | Except.ok rest => addEmbed rest [d.getD i.toNat (.joker false)] (some i)) = .ok d
  rw [remove_single_index d i h0 h1]
  show addEmbed (d.eraseIdx i.toNat) [d.getD i.toNat (.joker false)] (some i) = .ok d
  simp only [addEmbed, if_neg hcond2, hidx2, hgetD]
  congr 1
  rw [List.eraseIdx_eq_take_drop_succ, List.take_left' htlen, List.drop_left' htlen]
  conv_rhs => rw [← List.take_append_drop i.toNat d, List.drop_eq_getElem_cons hn]
  simp

/-- Witness for `draw_add_nonneg_restores`: index 1 of a three-card deck. -/
theorem draw_add_nonneg_restores_witness :
    ((0 : Int) ≤ 1 ∧ (1 : Int) < (3 : Int)) ∧
      drawThenAdd [.std 1 1, .joker true, .std 3 1] 1 = .ok [.std 1 1, .joker true, .std 3 1] :=
  ⟨by decide, draw_add_nonneg_restores [.std 1 1, .joker true, .std 3 1] 1 (by decide) (by decide)⟩

theorem grLoop_perm (pick : Nat → Nat) :
    ∀ (a k : Nat) (poss acc : List PCard), poss.length ≤ a →
      List.Perm (grLoop pick k a poss acc) (acc ++ poss) := by
  intro a
  induction a with
  | zero =>
      intro k poss acc h
      have hp : poss = [] := List.length_eq_zero.mp (Nat.le_zero.mp h)
      subst hp
      simp [grLoop]
  | succ a ih =>
      intro k poss acc h
      rcases poss with _ | ⟨x, xs⟩
      · simp [grLoop]
      · show List.Perm
          (grLoop pick (k + 1) a
            ((x :: xs).erase ((x :: xs).get ⟨pick k % (x :: xs).length, Nat.mod_lt _ (Nat.succ_pos _)⟩))
            (acc ++ [(x :: xs).get ⟨pick k % (x :: xs).length, Nat.mod_lt _ (Nat.succ_pos _)⟩]))
          (acc ++ (x :: xs))
        have hmemc : (x :: xs).get ⟨pick k % (x :: xs).length, Nat.mod_lt _ (Nat.succ_pos _)⟩ ∈ x :: xs :=
          List.get_mem _ _ _
        have hlen : ((x :: xs).erase
            ((x :: xs).get ⟨pick k % (x :: xs).length, Nat.mod_lt _ (Nat.succ_pos _)⟩)).length ≤ a := by
          rw [List.length_erase_of_mem hmemc]
          simpa using Nat.le_of_succ_le_succ h
        refine (ih (k + 1) _ _ hlen).trans ?_
        rw [List.append_assoc]
        exact List.Perm.append_left acc ((List.perm_cons_erase hmemc).symm)

/-- C9: for every deck, every choice sequence and every `amount` at least
the deck's size, `get_random(amount)` returns all the deck's cards — the
sampled list has exactly the deck's length and is a permutation of the
deck — raising no error, and the receiver's card list is unchanged. -/
theorem get_random_all_cards (pick : Nat → Nat) (amount : Nat) (cards : List PCard)
    (h : cards.length ≤ amount) :
    List.Perm (getRandomEmbed pick amount cards).1 cards ∧
      (getRandomEmbed pick amount cards).1.length = cards.length ∧
      (getRandomEmbed pick amount cards).2 = cards := by
  have hp := grLoop_perm pick amount 0 cards [] h
  rw [List.nil_append] at hp
  exact ⟨hp, hp.length_eq, rfl⟩

/-- Witness for `get_random_all_cards`: a two-card deck sampled with
`amount = 3` under the constant-zero choice stream. -/
theorem get_random_all_cards_witness :
    ([PCard.std 1 1, PCard.std 2 1] : List PCard).length ≤ 3 ∧
      (List.Perm (getRandomEmbed (fun _ => 0) 3 [.std 1 1, .std 2 1]).1 [.std 1 1, .std 2 1] ∧
        (getRandomEmbed (fun _ => 0) 3 [.std 1 1, .std 2 1]).1.length
          = ([PCard.std 1 1, PCard.std 2 1] : List PCard).length ∧
        (getRandomEmbed (fun _ => 0) 3 [.std 1 1, .std 2 1]).2 = [.std 1 1, .std 2 1]) :=
  ⟨by decide, get_random_all_cards (fun _ => 0) 3 [.std 1 1, .std 2 1] (by decide)⟩

/-- C1 counterexample: on a standard 54-card deck, `select(rank=-3)` — an
exclusion-only criterion for the scalar rank 3 — returns the empty deck,
although the deck has 54 cards of which 4 have rank 3, so the claimed
result size `len − count = 50` is not met (and the result is empty). -/
theorem select_exclusion_only_scenario :
    selectEmbed stdDeck54 (some (.scalar (.rInt (-3)))) none none none = .ok [] ∧
      stdDeck54.length = 54 ∧
      stdDeck54.countP (fun c => sameRank c (.std 3 1)) = 4 ∧
      (0 : Nat) ≠ 54 - 4 :=
  ⟨rfl, rfl, by decide, by decide⟩

/-- C1 (amended): calling `select` with only an exclusion criterion for a
scalar rank returns the empty deck: `separate_exclusions` pops the
exclusion out of the criterion list, and the inclusion rebuild then runs
unconditionally over the now-empty inclusion list, replacing the working
set with the empty concatenation. -/
theorem select_exclusion_only_empty (d : List PCard) (a e : RVal) (t : PCard)
    (hx : isExclTok a = true) (he : exclToken a = some e)
    (ht : getTestCardRank e = .ok t) :
    selectEmbed d (some (.scalar a)) none none none = .ok [] := by
  have hsep1 : (separateExclusions [a]).1 = [e] := by
    simp [separateExclusions, he]
  have hsep2 : (separateExclusions [a]).2 = [] := by
    simp [separateExclusions, hx]
  have hstage : critStage getTestCardRank sameRank d [a] = .ok [] := by
    unfold critStage
    rw [hsep1, hsep2]
    rcases d with _ | ⟨c0, dr⟩
    · rfl
    · simp [applyExclusions, ht, applyInclusions]
  simp [selectEmbed, Crit.toList, hstage]

/-- Witness for `select_exclusion_only_empty`: `select(rank=-3)` on a
two-card deck. -/
theorem select_exclusion_only_empty_witness :
    (isExclTok (.rInt (-3)) = true ∧ exclToken (.rInt (-3)) = some (.rInt 3) ∧
      getTestCardRank (.rInt 3) = .ok (.std 3 1)) ∧
      selectEmbed [.std 3 1, .std 4 2] (some (.scalar (.rInt (-3)))) none none none
        = .ok [] :=
  ⟨⟨rfl, rfl, rfl⟩,
    select_exclusion_only_empty [.std 3 1, .std 4 2] (.rInt (-3)) (.rInt 3) (.std 3 1)
      rfl rfl rfl⟩

theorem rankVal_isSome_of_mem : ∀ r ∈ rankNames, (rankVal r).isSome := by decide

theorem suitVal_isSome_of_mem : ∀ s ∈ suitNames, (suitVal s).isSome := by decide

theorem rowFor_eq (s : String) (hs : (suitVal s).isSome) :
    ∀ (ro : List String), (∀ r ∈ ro, (rankVal r).isSome) →
      rowFor s ro = .ok (ro.map (fun r => cardOfNames r s)) := by
  intro ro
  induction ro with
  | nil => intro _; rfl
  | cons r rest ih =>
      intro h
      obtain ⟨rv, hrv⟩ := Option.isSome_iff_exists.mp (h r (List.mem_cons_self r rest))
      obtain ⟨sv, hsv⟩ := Option.isSome_iff_exists.mp hs
      have hih := ih (fun x hx => h x (List.mem_cons_of_mem r hx))
      simp [rowFor, cardFromNames, hrv, hsv, hih, cardOfNames]

theorem rowsFor_eq (ro : List String) (hr : ∀ r ∈ ro, (rankVal r).isSome) :
    ∀ (so : List String), (∀ s ∈ so, (suitVal s).isSome) →
      rowsFor ro so = .ok (so.flatMap (fun s => ro.map (fun r => cardOfNames r s))) := by
  intro so
  induction so with
  | nil => intro _; rfl
  | cons s rest ih =>
      intro h
      have hs := h s (List.mem_cons_self s rest)
      have hih := ih (fun x hx => h x (List.mem_cons_of_mem s hx))
      simp [rowsFor, rowFor_eq s hs ro hr, hih]

/-- C10: a no-argument `Deck()` is populated by `generate_standard_deck`;
for any fixed enumeration order of the suit and rank name sets (within a
Python process the sets enumerate the same names in the same order on
every call, so every no-argument construction yields the same sequence),
the generated deck has exactly 54 cards: each of the 4×13 standard
suit-rank combinations exactly once, plus one black and one red Joker. -/
theorem standard_deck_generation (suitsOrd ranksOrd : List String)
    (hs : List.Perm suitsOrd suitNames) (hr : List.Perm ranksOrd rankNames) :
    ∃ L, generateStandardDeck suitsOrd ranksOrd = .ok L ∧ L.length = 54 ∧
      (∀ r s : Nat, 1 ≤ r → r ≤ 13 → 1 ≤ s → s ≤ 4 → L.count (.std r s) = 1) ∧
      L.count (.joker false) = 1 ∧ L.count (.joker true) = 1 := by
  have hrv : ∀ r ∈ ranksOrd, (rankVal r).isSome :=
    fun r hm => rankVal_isSome_of_mem r (hr.subset hm)
  have hsv : ∀ s ∈ suitsOrd, (suitVal s).isSome :=
    fun s hm => suitVal_isSome_of_mem s (hs.subset hm)
  have hgen : generateStandardDeck suitsOrd ranksOrd
      = .ok ((suitsOrd.flatMap (fun s => ranksOrd.map (fun r => cardOfNames r s)))
          ++ [.joker false, .joker true]) := by
    simp [generateStandardDeck, rowsFor_eq ranksOrd hrv suitsOrd hsv]
  have hp1 : List.Perm (suitsOrd.flatMap (fun s => ranksOrd.map (fun r => cardOfNames r s)))
      (suitNames.flatMap (fun s => ranksOrd.map (fun r => cardOfNames r s))) :=
    List.Perm.flatMap_right _ hs
  have hp2 : List.Perm (suitNames.flatMap (fun s => ranksOrd.map (fun r => cardOfNames r s)))
      (suitNames.flatMap (fun s => rankNames.map (fun r => cardOfNames r s))) :=
    List.Perm.flatMap_left suitNames (fun s _ => hr.map _)
  have hconc : suitNames.flatMap (fun s => rankNames.map (fun r => cardOfNames r s))
      = stdCards52 := by rfl
  have hperm : List.Perm
      ((suitsOrd.flatMap (fun s => ranksOrd.map (fun r => cardOfNames r s)))
        ++ [.joker false, .joker true]) stdDeck54 :=
    List.Perm.append_right _ ((hp1.trans hp2).trans (hconc ▸ List.Perm.refl _))
  refine ⟨_, hgen, ?_, ?_, ?_, ?_⟩
  · rw [hperm.length_eq]
    rfl
  · intro r s hr1 hr13 hs1 hs4
    rw [hperm.count_eq]
    have hb : ∀ r : Nat, r < 14 → ∀ s : Nat, s < 5 → 1 ≤ r → 1 ≤ s →
        stdDeck54.count (.std r s) = 1 := by decide
    exact hb r (by omega) s (by omega) hr1 hs1
  · rw [hperm.count_eq]
    decide
  · rw [hperm.count_eq]
    decide

/-- Witness for `standard_deck_generation` at the canonical enumeration
orders. -/
theorem standard_deck_generation_witness :
    (List.Perm suitNames suitNames ∧ List.Perm rankNames rankNames) ∧
      (∃ L, generateStandardDeck suitNames rankNames = .ok L ∧ L.length = 54 ∧
        (∀ r s : Nat, 1 ≤ r → r ≤ 13 → 1 ≤ s → s ≤ 4 → L.count (.std r s) = 1) ∧
        L.count (.joker false) = 1 ∧ L.count (.joker true) = 1) :=
  ⟨⟨List.Perm.refl _, List.Perm.refl _⟩,
    standard_deck_generation suitNames rankNames (List.Perm.refl _) (List.Perm.refl _)⟩

end CardLib
